import Mathlib

/-!
Shallow embedding of the LED-matrix pixel engine of `sense_hat/sense_hat.py`
(repository `paddywwoof/python-sense-hat`) and proofs about it.

The embedding covers: the RGB565 codec (`_pack_bin` / `_unpack_bin`), the
coordinate-to-offset map (`_xy_rotated`), single-pixel and whole-frame
framebuffer access (`set_pixel`, `get_pixel`, `set_pixels`, `get_pixels`,
`set_rotation`), glyph trimming (`_trim_whitespace`), character lookup
(`_get_char_pixels`) and the text renderer (`show_letter`, `show_message`).

Modelling conventions:
* Python integers are `Int`; values stored in a numpy `uint16` array are
  `Nat` (writes into such an array wrap modulo 2 ^ 16, modelled by `wrap16`).
* The framebuffer device is exactly 128 bytes = 64 little-endian 16-bit
  cells; it is modelled as `Frame := Fin 64 → Nat`, one `Nat` per 16-bit
  cell.  A seek to byte `2 * off` with `off < 64` addresses cell `off`.
  A 2-byte write at `off ≥ 64` lies beyond the end of the fixed-size
  framebuffer: the device write fails (the kernel fb driver rejects writes
  past the end of the buffer), and a 2-byte read there returns no bytes,
  which makes the subsequent `pix[0]` indexing fail.  Both are modelled as
  `Except.error`.
* Exceptions are `Except String`; the string is the message raised by the
  source.  Where an exception can propagate while instance state (the
  `_rotation` field) has already been mutated, the function returns the
  final rotation alongside the `Except` result.
-/

set_option maxRecDepth 4096

namespace SenseHat

/-- Decidable equality for `Except`, used to evaluate the model's results
on concrete inputs. -/
instance {ε α : Type} [DecidableEq ε] [DecidableEq α] :
    DecidableEq (Except ε α) := fun a b =>
  match a, b with
  | .ok x, .ok y =>
      if h : x = y then isTrue (congrArg Except.ok h)
      else isFalse (fun hc => h (Except.ok.inj hc))
  | .ok _, .error _ => isFalse (fun hc => Except.noConfusion hc)
  | .error _, .ok _ => isFalse (fun hc => Except.noConfusion hc)
  | .error e, .error f =>
      if h : e = f then isTrue (congrArg Except.error h)
      else isFalse (fun hc => h (Except.error.inj hc))

/-- An RGB pixel as stored in a numpy `uint16` array: three channel values. -/
structure Pixel where
  r : Nat
  g : Nat
  b : Nat
deriving DecidableEq, Repr

/-- An RGB pixel as supplied by a Python caller: three arbitrary integers. -/
structure PixelZ where
  r : Int
  g : Int
  b : Int
deriving DecidableEq, Repr

/-- Storing a Python integer into a numpy `uint16` array keeps its value
modulo 2 ^ 16 (numpy wraps on dtype conversion). -/
def wrap16 (z : Int) : Nat := (z % 65536).toNat

/-- Coercion of a caller-supplied pixel into a `uint16` pixel, as performed
by `np.array(..., dtype=np.uint16)` / `astype(np.uint16)` in `set_pixels`,
and by assignment into a `uint16` array in the text renderer. -/
def wrapPix (p : PixelZ) : Pixel := ⟨wrap16 p.r, wrap16 p.g, wrap16 p.b⟩

/-- `_pack_bin`, per pixel: encode `[R,G,B]` into a 16-bit RGB565 value,
`((R & 0xF8) << 8) + ((G & 0xFC) << 3) + (B >> 3)`.  The three summands
occupy disjoint bit fields, so the `uint16` additions cannot wrap. -/
def packBin (p : Pixel) : Nat :=
  ((p.r &&& 0xF8) <<< 8) + ((p.g &&& 0xFC) <<< 3) + (p.b >>> 3)

/-- `_unpack_bin`, per 16-bit cell: decode RGB565 into `[R,G,B]` via
`R = (v & 0xF800) >> 8`, `G = (v & 0x07E0) >> 3`, `B = (v & 0x001F) << 3`. -/
def unpackBin (v : Nat) : Pixel :=
  ⟨(v &&& 0xF800) >>> 8, (v &&& 0x07E0) >>> 3, (v &&& 0x001F) <<< 3⟩

/-! ### Bit-mask arithmetic

Helper lemmas turning the `&&&`-masks of the codec into `/` and `%`
arithmetic, so that `omega` can reason about them. -/

theorem and_div_two_pow (x y k : Nat) :
    (x &&& y) / 2 ^ k = (x / 2 ^ k) &&& (y / 2 ^ k) := by
  induction k with
  | zero => simp
  | succ k ih =>
      rw [pow_succ, ← Nat.div_div_eq_div_mul, ih, Nat.and_div_two,
        Nat.div_div_eq_div_mul, Nat.div_div_eq_div_mul, ← pow_succ]

theorem and_2047_eq_mod (x : Nat) : x &&& 2047 = x % 2048 := by
  have h := Nat.and_pow_two_sub_one_eq_mod x 11
  norm_num at h
  exact h

theorem and_31_eq_mod (x : Nat) : x &&& 31 = x % 32 := by
  have h := Nat.and_pow_two_sub_one_eq_mod x 5
  norm_num at h
  exact h

theorem and_63_eq_mod (x : Nat) : x &&& 63 = x % 64 := by
  have h := Nat.and_pow_two_sub_one_eq_mod x 6
  norm_num at h
  exact h

theorem and_7_eq_mod (x : Nat) : x &&& 7 = x % 8 := by
  have h := Nat.and_pow_two_sub_one_eq_mod x 3
  norm_num at h
  exact h

theorem and_3_eq_mod (x : Nat) : x &&& 3 = x % 4 := by
  have h := Nat.and_pow_two_sub_one_eq_mod x 2
  norm_num at h
  exact h

/-- The R mask of `_unpack_bin` in arithmetic form, for any cell value. -/
theorem and_63488_eq (v : Nat) : v &&& 63488 = 2048 * (v / 2048 % 32) := by
  have hmod : (v &&& 63488) % 2048 = 0 := by
    rw [← and_2047_eq_mod, Nat.and_assoc]
    norm_num [show (63488 : Nat) &&& 2047 = 0 from by decide]
  have hdiv : (v &&& 63488) / 2048 = v / 2048 % 32 := by
    have h := and_div_two_pow v 63488 11
    norm_num at h
    rw [h, and_31_eq_mod]
  omega

/-- The G mask of `_unpack_bin` in arithmetic form, for any cell value. -/
theorem and_2016_eq (v : Nat) : v &&& 2016 = 32 * (v / 32 % 64) := by
  have hmod : (v &&& 2016) % 32 = 0 := by
    rw [← and_31_eq_mod, Nat.and_assoc]
    norm_num [show (2016 : Nat) &&& 31 = 0 from by decide]
  have hdiv : (v &&& 2016) / 32 = v / 32 % 64 := by
    have h := and_div_two_pow v 2016 5
    norm_num at h
    rw [h, and_63_eq_mod]
  omega

/-- The R mask of `_pack_bin` in arithmetic form. -/
theorem and_248_eq (v : Nat) : v &&& 248 = 8 * (v / 8 % 32) := by
  have hmod : (v &&& 248) % 8 = 0 := by
    rw [← and_7_eq_mod, Nat.and_assoc]
    norm_num [show (248 : Nat) &&& 7 = 0 from by decide]
  have hdiv : (v &&& 248) / 8 = v / 8 % 32 := by
    have h := and_div_two_pow v 248 3
    norm_num at h
    rw [h, and_31_eq_mod]
  omega

/-- The G mask of `_pack_bin` in arithmetic form. -/
theorem and_252_eq (v : Nat) : v &&& 252 = 4 * (v / 4 % 64) := by
  have hmod : (v &&& 252) % 4 = 0 := by
    rw [← and_3_eq_mod, Nat.and_assoc]
    norm_num [show (252 : Nat) &&& 3 = 0 from by decide]
  have hdiv : (v &&& 252) / 4 = v / 4 % 64 := by
    have h := and_div_two_pow v 252 2
    norm_num at h
    rw [h, and_63_eq_mod]
  omega

/-- `_unpack_bin` in purely arithmetic form, for any cell value. -/
theorem unpackBin_eq (v : Nat) :
    unpackBin v = ⟨8 * (v / 2048 % 32), 4 * (v / 32 % 64), 8 * (v % 32)⟩ := by
  have hr := and_63488_eq v
  have hg := and_2016_eq v
  have hb := and_31_eq_mod v
  simp only [unpackBin, Pixel.mk.injEq]
  refine ⟨?_, ?_, ?_⟩
  · rw [show (0xF800 : Nat) = 63488 from rfl, hr, Nat.shiftRight_eq_div_pow]
    omega
  · rw [show (0x07E0 : Nat) = 2016 from rfl, hg, Nat.shiftRight_eq_div_pow]
    omega
  · rw [show (0x001F : Nat) = 31 from rfl, hb, Nat.shiftLeft_eq]
    omega

/-- `_pack_bin` in purely arithmetic form, for validated channels. -/
theorem packBin_eq_arith (p : Pixel) (hr : p.r ≤ 255) (hg : p.g ≤ 255) :
    packBin p = 2048 * (p.r / 8) + 32 * (p.g / 4) + p.b / 8 := by
  have h1 := and_248_eq p.r
  have h2 := and_252_eq p.g
  simp only [packBin, show (0xF8 : Nat) = 248 from rfl,
    show (0xFC : Nat) = 252 from rfl, h1, h2, Nat.shiftLeft_eq,
    Nat.shiftRight_eq_div_pow]
  have : p.r / 8 % 32 = p.r / 8 := Nat.mod_eq_of_lt (by omega)
  have : p.g / 4 % 64 = p.g / 4 := Nat.mod_eq_of_lt (by omega)
  simp_all
  omega

/-- Decode-of-encode quantises each channel by clearing low bits:
R and B to multiples of 8, G to a multiple of 4 (helper shared by the
codec and framebuffer proofs). -/
theorem unpack_pack (p : Pixel) (hr : p.r ≤ 255) (hg : p.g ≤ 255)
    (hb : p.b ≤ 255) :
    unpackBin (packBin p) = ⟨8 * (p.r / 8), 4 * (p.g / 4), 8 * (p.b / 8)⟩ := by
  rw [packBin_eq_arith p hr hg, unpackBin_eq]
  simp only [Pixel.mk.injEq]
  omega

/-- Channel bounds of `_unpack_bin`, for any cell value: decoded channels
always lie in `[0, 255]` (so a decoded frame always revalidates). -/
theorem unpackBin_le (v : Nat) :
    (unpackBin v).r ≤ 248 ∧ (unpackBin v).g ≤ 252 ∧ (unpackBin v).b ≤ 248 := by
  rw [unpackBin_eq]
  refine ⟨?_, ?_, ?_⟩ <;> simp <;> omega

/-- Decoded channels are already quantised, for any cell value. -/
theorem unpackBin_quantised (v : Nat) :
    (unpackBin v).r % 8 = 0 ∧ (unpackBin v).g % 4 = 0 ∧
      (unpackBin v).b % 8 = 0 := by
  rw [unpackBin_eq]
  refine ⟨?_, ?_, ?_⟩ <;> simp

/-- Re-encoding a decoded cell and decoding again is the identity on the
decoded pixel (the codec round trip is stable from the first decode on). -/
theorem unpack_pack_unpack (v : Nat) :
    unpackBin (packBin (unpackBin v)) = unpackBin v := by
  have h := unpackBin_eq v
  rw [h]
  rw [unpack_pack ⟨8 * (v / 2048 % 32), 4 * (v / 32 % 64), 8 * (v % 32)⟩
    (by simp; omega) (by simp; omega) (by simp; omega)]
  simp only [Pixel.mk.injEq]
  omega

/-- C3: for every pixel `p` with channels in `[0,255]`,
`decode(encode(p))` quantises each channel rounding down — R and B keep
their value with the low 3 bits cleared (a multiple of 8), G keeps its
value with the low 2 bits cleared (a multiple of 4); the round trip is in
general not the identity (it is the identity exactly when the channels are
already quantised), but it is idempotent from the second application
onward: `decode(encode(decode(encode(p)))) = decode(encode(p))`. -/
theorem rgb565_roundtrip_quantizes (p : Pixel)
    (hr : p.r ≤ 255) (hg : p.g ≤ 255) (hb : p.b ≤ 255) :
    unpackBin (packBin p) = ⟨p.r - p.r % 8, p.g - p.g % 4, p.b - p.b % 8⟩
    ∧ (unpackBin (packBin p)).r % 8 = 0
    ∧ (unpackBin (packBin p)).g % 4 = 0
    ∧ (unpackBin (packBin p)).b % 8 = 0
    ∧ unpackBin (packBin (unpackBin (packBin p))) = unpackBin (packBin p)
    ∧ (unpackBin (packBin p) = p ↔
        p.r % 8 = 0 ∧ p.g % 4 = 0 ∧ p.b % 8 = 0) := by
  obtain ⟨r, g, b⟩ := p
  simp only at hr hg hb
  have h := unpack_pack ⟨r, g, b⟩ hr hg hb
  simp only at h
  rw [h]
  refine ⟨by simp only [Pixel.mk.injEq]; omega, by simp, by simp,
    by simp, ?_, by simp only [Pixel.mk.injEq]; constructor <;> intro <;> omega⟩
  rw [unpack_pack ⟨8 * (r / 8), 4 * (g / 4), 8 * (b / 8)⟩
    (by simp; omega) (by simp; omega) (by simp; omega)]
  simp only [Pixel.mk.injEq]
  omega

/-- Witness for C3 at the concrete pixel `(10, 21, 37)`. -/
theorem rgb565_roundtrip_quantizes_witness :
    unpackBin (packBin ⟨10, 21, 37⟩) = ⟨10 - 10 % 8, 21 - 21 % 4, 37 - 37 % 8⟩
    ∧ (unpackBin (packBin ⟨10, 21, 37⟩)).r % 8 = 0
    ∧ (unpackBin (packBin ⟨10, 21, 37⟩)).g % 4 = 0
    ∧ (unpackBin (packBin ⟨10, 21, 37⟩)).b % 8 = 0
    ∧ unpackBin (packBin (unpackBin (packBin ⟨10, 21, 37⟩)))
        = unpackBin (packBin ⟨10, 21, 37⟩)
    ∧ (unpackBin (packBin ⟨10, 21, 37⟩) = ⟨10, 21, 37⟩ ↔
        10 % 8 = 0 ∧ 21 % 4 = 0 ∧ 37 % 8 = 0) :=
  rgb565_roundtrip_quantizes ⟨10, 21, 37⟩ (by decide) (by decide) (by decide)

/-! ### The coordinate-to-offset map -/

/-- `_xy_rotated`: offset of the logical `(x, y)` location in the flattened
form of the array as saved to the fb device stream, adjusting for the
stored rotation.  Mirrors the source's `if/elif` chain; any other rotation
value raises `ValueError`. -/
def xyRotated (rotation x y : Int) : Except String Int :=
  if rotation = 0 then .ok (x + 8 * y)
  else if rotation = 90 then .ok (8 + 8 * x - y)
  else if rotation = 180 then .ok (72 - x - 8 * y)
  else if rotation = 270 then .ok (64 - 8 * x + y)
  else .error "Rotation must be 0, 90, 180 or 270 degrees"

/-- Counterexample to C1: at rotation 90 the coordinate `(7, 0)` is mapped
to offset 64, which is outside `[0, 63]` (so the map is not a bijection
onto `[0, 63]`; cell 64 does not even exist in the 64-cell frame). -/
theorem xyRotated_escapes_frame :
    xyRotated 90 7 0 = Except.ok 64 ∧ ¬((64 : Int) ≤ 63) := by decide

/-- C1 (amended): `_xy_rotated` computes exactly the four stated formulas,
and for each fixed rotation the map is a bijection from the 64 logical
coordinates onto a 64-element integer interval — but that interval is
`[0, 63]` only for rotation 0; it is `[1, 64]` for 90, `[9, 72]` for 180
and `[8, 71]` for 270.  Injectivity is stated as the image having full
cardinality 64; the image equalities state the exact (shifted) ranges. -/
theorem xyRotated_formulas_bijection :
    (∀ x y : Fin 8,
      xyRotated 0 x.val y.val = .ok (x.val + 8 * y.val)
      ∧ xyRotated 90 x.val y.val = .ok (8 + 8 * x.val - y.val)
      ∧ xyRotated 180 x.val y.val = .ok (72 - x.val - 8 * y.val)
      ∧ xyRotated 270 x.val y.val = .ok (64 - 8 * x.val + y.val))
    ∧ (Finset.univ.image
        (fun p : Fin 8 × Fin 8 => xyRotated 0 p.1.val p.2.val)
      = Finset.univ.image (fun o : Fin 64 => Except.ok ((o.val : Int) + 0)))
    ∧ (Finset.univ.image
        (fun p : Fin 8 × Fin 8 => xyRotated 0 p.1.val p.2.val)).card = 64
    ∧ (Finset.univ.image
        (fun p : Fin 8 × Fin 8 => xyRotated 90 p.1.val p.2.val)
      = Finset.univ.image (fun o : Fin 64 => Except.ok ((o.val : Int) + 1)))
    ∧ (Finset.univ.image
        (fun p : Fin 8 × Fin 8 => xyRotated 90 p.1.val p.2.val)).card = 64
    ∧ (Finset.univ.image
        (fun p : Fin 8 × Fin 8 => xyRotated 180 p.1.val p.2.val)
      = Finset.univ.image (fun o : Fin 64 => Except.ok ((o.val : Int) + 9)))
    ∧ (Finset.univ.image
        (fun p : Fin 8 × Fin 8 => xyRotated 180 p.1.val p.2.val)).card = 64
    ∧ (Finset.univ.image
        (fun p : Fin 8 × Fin 8 => xyRotated 270 p.1.val p.2.val)
      = Finset.univ.image (fun o : Fin 64 => Except.ok ((o.val : Int) + 8)))
    ∧ (Finset.univ.image
        (fun p : Fin 8 × Fin 8 => xyRotated 270 p.1.val p.2.val)).card = 64 := by
  decide

/-! ### The framebuffer device and single-pixel access -/

/-- The 128-byte framebuffer device as 64 16-bit cells. -/
def Frame : Type := Fin 64 → Nat

/-- The all-zero (blank) frame. -/
def frame0 : Frame := fun _ => 0

/-- `set_pixel`: validates the coordinates and the three channels, then
seeks to `_xy_rotated(x, y) * 2` bytes and writes the 2 encoded bytes —
a partial update of the frame at one cell.  A write whose offset is not a
cell of the 64-cell frame fails at the device (see module docstring). -/
def setPixel (rotation x y : Int) (p : PixelZ) (frame : Frame) :
    Except String Frame :=
  if x > 7 ∨ x < 0 then .error "X position must be between 0 and 7"
  else if y > 7 ∨ y < 0 then .error "Y position must be between 0 and 7"
  else if p.r > 255 ∨ p.r < 0 ∨ p.g > 255 ∨ p.g < 0 ∨ p.b > 255 ∨ p.b < 0 then
    .error "Pixel elements must be between 0 and 255"
  else do
    let off ← xyRotated rotation x y
    if h : 0 ≤ off ∧ off < 64 then
      .ok (fun c => if c = (⟨off.toNat, by omega⟩ : Fin 64) then
        packBin ⟨p.r.toNat, p.g.toNat, p.b.toNat⟩ else frame c)
    else .error "write past end of framebuffer"

/-- `get_pixel`: validates the coordinates, seeks to
`_xy_rotated(x, y) * 2` bytes and reads back 2 bytes, decoding them.  A
read past the end of the frame returns no bytes, so the source's `pix[0]`
fails. -/
def getPixel (rotation x y : Int) (frame : Frame) : Except String Pixel :=
  if x > 7 ∨ x < 0 then .error "X position must be between 0 and 7"
  else if y > 7 ∨ y < 0 then .error "Y position must be between 0 and 7"
  else do
    let off ← xyRotated rotation x y
    if h : 0 ≤ off ∧ off < 64 then
      .ok (unpackBin (frame ⟨off.toNat, by omega⟩))
    else .error "read past end of framebuffer"

/-- C2 (code bug): at rotation 90 the coordinate `(7, 0)` is mapped by
`_xy_rotated` to offset 64, i.e. byte 128 of the 128-byte device, so
`set_pixel` cannot perform the write and `get_pixel` cannot return the
RGB565-quantised colour — the set/get round trip is not independent of
rotation as claimed; it breaks wherever the offset leaves the frame. -/
theorem setPixel_rot90_escapes_frame :
    setPixel 90 7 0 ⟨255, 255, 255⟩ frame0 = .error "write past end of framebuffer"
    ∧ getPixel 90 7 0 frame0 = .error "read past end of framebuffer" :=
  ⟨rfl, rfl⟩

/-! ### Whole-frame access -/

/-- An 8×8 numpy array (shape `(8, 8, ·)`), indexed row then column. -/
def Grid (α : Type) : Type := Fin 8 → Fin 8 → α

/-- Pointwise map over a grid. -/
def mapGrid {α β : Type} (h : α → β) (g : Grid α) : Grid β :=
  fun i j => h (g i j)

/-- Index reversal `i ↦ 7 - i` on an 8-element axis. -/
def revFin (i : Fin 8) : Fin 8 := ⟨7 - i.val, by omega⟩

/-- `np.rot90`, one quarter turn counter-clockwise:
`rot90(m)[i][j] = m[j][7 - i]`. -/
def rot90 {α : Type} (g : Grid α) : Grid α :=
  fun i j => g j (revFin i)

/-- `np.rot90(m, k)`: `k` quarter turns. -/
def rotK {α : Type} : Nat → Grid α → Grid α
  | 0, g => g
  | k + 1, g => rot90 (rotK k g)

/-- Row-major flattened offset of grid position `(i, j)` (row `i`,
column `j`), as used by `tostring`/`fromstring` on an `(8, 8)` array. -/
def idx64 (i j : Fin 8) : Fin 64 := ⟨8 * i.val + j.val, by omega⟩

/-- Read the frame as an 8×8 grid of cells (row-major). -/
def frameGrid (f : Frame) : Grid Nat := fun i j => f (idx64 i j)

/-- Serialise an 8×8 grid of cells into the 64-cell frame (row-major),
as `f.write(self._pack_bin(pixel_list))` does. -/
def writeGrid (g : Grid Nat) : Frame :=
  fun c => g ⟨c.val / 8, by omega⟩ ⟨c.val % 8, by omega⟩

/-- `get_pixels`: read all 128 bytes, decode, and (for a non-zero stored
rotation) rotate the 8×8 grid by `(360 - rotation) / 90` quarter turns. -/
def getPixels (rotation : Int) (frame : Frame) : Grid Pixel :=
  let pg := mapGrid unpackBin (frameGrid frame)
  if 0 < rotation then rotK ((360 - rotation) / 90).toNat pg else pg

/-- `set_pixels` on an already-`(8, 8, 3)`-shaped array: coerce the values
to `uint16`, validate every channel against `[0, 255]`, then (for a
non-zero stored rotation) rotate the grid by `rotation / 90` quarter turns,
encode, and overwrite the whole 128-byte frame. -/
def setPixelsGrid (rotation : Int) (g : Grid PixelZ) : Except String Frame :=
  let w : Grid Pixel := mapGrid wrapPix g
  if ∀ i j : Fin 8, (w i j).r ≤ 255 ∧ (w i j).g ≤ 255 ∧ (w i j).b ≤ 255 then
    let rotated := if 0 < rotation then rotK (rotation / 90).toNat w else w
    .ok (writeGrid (mapGrid packBin rotated))
  else .error "A pixel is invalid. Pixel elements must be between 0 and 255"

/-- `set_pixels` on a flat sequence of channel values: coerce to `uint16`,
attempt the `(8, 8, 3)` reshape (which succeeds exactly when there are
`64 × 3 = 192` elements), validate every channel, then rotate, encode and
overwrite the frame.  Element `(i, j, k)` of the reshaped array is flat
element `24 i + 3 j + k`. -/
def setPixelsList (rotation : Int) (l : List Int) : Except String Frame :=
  let wrapped := l.map wrap16
  if wrapped.length = 192 then
    if wrapped.all (fun v => decide (v ≤ 255)) then
      let g : Grid Pixel := fun i j =>
        ⟨wrapped.getD (24 * i.val + 3 * j.val) 0,
         wrapped.getD (24 * i.val + 3 * j.val + 1) 0,
         wrapped.getD (24 * i.val + 3 * j.val + 2) 0⟩
      let rotated := if 0 < rotation then rotK (rotation / 90).toNat g else g
      .ok (writeGrid (mapGrid packBin rotated))
    else .error "A pixel is invalid. Pixel elements must be between 0 and 255"
  else .error "Pixel lists must have 64 elements of 3 values each Red, Green, Blue"

/-- Driver instance state: the `_rotation` field and the device contents. -/
structure HatState where
  rotation : Int
  frame : Frame

/-- View a decoded (`uint16`-valued) grid as caller-side integer pixels
(the values are unchanged; `set_pixels` re-coerces them). -/
def toZGrid (g : Grid Pixel) : Grid PixelZ :=
  mapGrid (fun p => ⟨(p.r : Int), (p.g : Int), (p.b : Int)⟩) g

/-- `set_rotation(r, redraw)`: for a supported rotation, read the pixels
back at the old rotation, store the new rotation, and redraw the buffer at
the new rotation; unsupported rotations raise `ValueError`. -/
def setRotation (r : Int) (redraw : Bool) (st : HatState) :
    Except String HatState :=
  if r = 0 ∨ r = 90 ∨ r = 180 ∨ r = 270 then
    if redraw then
      match setPixelsGrid r (toZGrid (getPixels st.rotation st.frame)) with
      | .ok f => .ok ⟨r, f⟩
      | .error e => .error e
    else .ok ⟨r, st.frame⟩
  else .error "Rotation must be 0, 90, 180 or 270 degrees"

/-- A flat pixel list whose first channel value 65736 is far outside
`[0, 255]` but wraps to 200 under `uint16` coercion. -/
def badPixelList : List Int := 65736 :: List.replicate 191 0

/-- Counterexample to C6: an input whose first channel is 65736 — outside
`[0, 255]` — is *not* rejected: `np.array(..., dtype=np.uint16)` silently
wraps it to 200, validation passes, and the wrapped value is encoded and
written to cell 0 of the device. -/
theorem setPixels_wraps_out_of_range :
    ((65736 : Int) < 0 ∨ (65736 : Int) > 255)
    ∧ ∃ f : Frame, setPixelsList 0 badPixelList = .ok f
        ∧ f 0 = packBin ⟨200, 0, 0⟩ := by
  exact ⟨by decide, _, rfl, rfl⟩

/-- C6 (amended): `set_pixels` fails with a validation error, before any
device write, exactly when the element count is not 64 pixels (192 channel
values) or some channel is outside `[0, 255]` *after* `uint16` coercion
(wrapping modulo 2 ^ 16).  Negative values wrap high and are caught, but an
out-of-range value that wraps into `[0, 255]` (such as 65736 → 200) is
silently coerced and written. -/
theorem setPixels_validation (rotation : Int) (l : List Int) :
    (∃ f, setPixelsList rotation l = .ok f) ↔
      (l.length = 192 ∧ ∀ z ∈ l, wrap16 z ≤ 255) := by
  unfold setPixelsList
  by_cases hlen : (l.map wrap16).length = 192
  · by_cases hall : (l.map wrap16).all (fun v => decide (v ≤ 255))
    · simp only [hlen, if_true, hall, if_true]
      simp only [List.all_eq_true, List.mem_map, decide_eq_true_eq] at hall
      simp only [List.length_map] at hlen
      constructor
      · intro _
        exact ⟨hlen, fun z hz => hall _ ⟨z, hz, rfl⟩⟩
      · intro _
        exact ⟨_, rfl⟩
    · simp only [hlen, if_true, hall, if_false]
      simp only [List.all_eq_true, List.mem_map, decide_eq_true_eq, not_forall] at hall
      constructor
      · intro ⟨f, hf⟩
        exact absurd hf (by simp)
      · rintro ⟨-, hgood⟩
        obtain ⟨v, hv, hvgt⟩ := hall
        obtain ⟨z, hz, rfl⟩ := hv
        exact absurd (hgood z hz) hvgt
  · simp only [hlen, if_false]
    simp only [List.length_map] at hlen
    constructor
    · intro ⟨f, hf⟩
      exact absurd hf (by simp)
    · rintro ⟨hbad, -⟩
      exact absurd hbad hlen

/-- Witness for C6 (amended) at a concrete valid input: 192 zero channels
are accepted. -/
theorem setPixels_validation_witness :
    ∃ f, setPixelsList 0 (List.replicate 192 (0 : Int)) = .ok f :=
  (setPixels_validation 0 (List.replicate 192 (0 : Int))).mpr
    ⟨by decide, by decide⟩

/-! ### Rotation algebra for the whole-frame round trip -/

theorem revFin_revFin (i : Fin 8) : revFin (revFin i) = i := by
  apply Fin.ext
  simp only [revFin]
  omega

theorem rot90_rot90 {α : Type} (g : Grid α) (i j : Fin 8) :
    rot90 (rot90 g) i j = g (revFin i) (revFin j) := rfl

theorem rotK_four {α : Type} (g : Grid α) : rotK 4 g = g := by
  funext i j
  show rot90 (rot90 (rot90 (rot90 g))) i j = g i j
  rw [rot90_rot90, rot90_rot90, revFin_revFin, revFin_revFin]

theorem rot90_map {α β : Type} (h : α → β) (g : Grid α) :
    rot90 (mapGrid h g) = mapGrid h (rot90 g) := rfl

theorem rotK_map {α β : Type} (k : Nat) (h : α → β) (g : Grid α) :
    rotK k (mapGrid h g) = mapGrid h (rotK k g) := by
  induction k with
  | zero => rfl
  | succ k ih => show rot90 (rotK k (mapGrid h g)) = _; rw [ih]; rfl

theorem rotK_rotK {α : Type} (a b : Nat) (g : Grid α) :
    rotK a (rotK b g) = rotK (b + a) g := by
  induction a with
  | zero => rfl
  | succ a ih =>
      show rot90 (rotK a (rotK b g)) = rot90 (rotK (b + a) g)
      rw [ih]

theorem frameGrid_writeGrid (g : Grid Nat) : frameGrid (writeGrid g) = g := by
  funext i j
  have hi : (8 * i.val + j.val) / 8 = i.val := by omega
  have hj : (8 * i.val + j.val) % 8 = j.val := by omega
  simp [frameGrid, writeGrid, idx64, hi, hj]

/-- Every cell that `get_pixels` returns is the decode of some device
cell (whatever the stored rotation is). -/
theorem getPixels_exists_cell (r : Int) (f : Frame) (i j : Fin 8) :
    ∃ v, getPixels r f i j = unpackBin v := by
  unfold getPixels
  by_cases h : 0 < r
  · simp only [h, if_true]
    rw [rotK_map]
    exact ⟨_, rfl⟩
  · simp only [h, if_false]
    exact ⟨_, rfl⟩

/-- Re-encoding then re-decoding a grid of already-decoded pixels is the
identity. -/
theorem mapGrid_unpack_pack (G : Grid Pixel)
    (hG : ∀ i j, ∃ v, G i j = unpackBin v) :
    mapGrid (fun p => unpackBin (packBin p)) G = G := by
  funext i j
  obtain ⟨v, hv⟩ := hG i j
  simp only [mapGrid, hv, unpack_pack_unpack]

/-- Round-tripping a validated `uint16` pixel through caller-side integers
is the identity. -/
theorem wrapPix_of_le (p : Pixel) (h1 : p.r ≤ 255) (h2 : p.g ≤ 255)
    (h3 : p.b ≤ 255) :
    wrapPix ⟨(p.r : Int), (p.g : Int), (p.b : Int)⟩ = p := by
  obtain ⟨a, b, c⟩ := p
  simp only [wrapPix, wrap16, Pixel.mk.injEq] at *
  refine ⟨?_, ?_, ?_⟩ <;> omega

/-- `set_pixels` on a grid freshly produced by `get_pixels` always passes
validation and writes the rotated re-encoding of that grid. -/
theorem setPixelsGrid_of_decoded (r : Int) (G : Grid Pixel)
    (hG : ∀ i j, ∃ v, G i j = unpackBin v) :
    setPixelsGrid r (toZGrid G) =
      .ok (writeGrid (mapGrid packBin
        (if 0 < r then rotK (r / 90).toNat G else G))) := by
  have hwrap : mapGrid wrapPix (toZGrid G) = G := by
    funext i j
    obtain ⟨v, hv⟩ := hG i j
    have hle := unpackBin_le v
    simp only [mapGrid, toZGrid]
    rw [hv]
    exact wrapPix_of_le (unpackBin v) (by omega) (by omega) (by omega)
  have hval : ∀ i j : Fin 8,
      (G i j).r ≤ 255 ∧ (G i j).g ≤ 255 ∧ (G i j).b ≤ 255 := by
    intro i j
    obtain ⟨v, hv⟩ := hG i j
    rw [hv]
    have := unpackBin_le v
    omega
  simp only [setPixelsGrid, hwrap]
  rw [if_pos hval]

/-- C8: starting from any driver state (any stored rotation, any device
frame), `set_rotation(90)` with redraw followed by `set_rotation(0)` with
redraw succeeds and restores the original `get_pixels()` output
bit-for-bit. -/
theorem set_rotation_roundtrip (r0 : Int) (f : Frame) :
    ∃ st1 st2, setRotation 90 true ⟨r0, f⟩ = .ok st1
      ∧ setRotation 0 true st1 = .ok st2
      ∧ getPixels st2.rotation st2.frame = getPixels r0 f := by
  have hG : ∀ i j, ∃ v, getPixels r0 f i j = unpackBin v :=
    getPixels_exists_cell r0 f
  have hmapG : mapGrid (fun p => unpackBin (packBin p)) (getPixels r0 f)
      = getPixels r0 f := mapGrid_unpack_pack _ hG
  have h1 : setRotation 90 true ⟨r0, f⟩ =
      .ok ⟨90, writeGrid (mapGrid packBin (rot90 (getPixels r0 f)))⟩ := by
    simp only [setRotation]
    rw [setPixelsGrid_of_decoded 90 _ hG]
    norm_num
    rfl
  have hget1 : getPixels 90 (writeGrid (mapGrid packBin (rot90 (getPixels r0 f))))
      = getPixels r0 f := by
    simp only [getPixels]
    norm_num
    rw [frameGrid_writeGrid]
    show rotK 3 (mapGrid unpackBin (mapGrid packBin (rot90 (getPixels r0 f))))
      = getPixels r0 f
    have hcomp : mapGrid unpackBin (mapGrid packBin (rot90 (getPixels r0 f)))
        = rot90 (getPixels r0 f) := by
      show mapGrid (fun p => unpackBin (packBin p)) (rot90 (getPixels r0 f))
        = rot90 (getPixels r0 f)
      rw [← rot90_map, hmapG]
    rw [hcomp]
    show rotK 3 (rotK 1 (getPixels r0 f)) = getPixels r0 f
    rw [rotK_rotK]
    exact rotK_four _
  have hG1 : ∀ i j, ∃ v,
      getPixels 90 (writeGrid (mapGrid packBin (rot90 (getPixels r0 f)))) i j
        = unpackBin v :=
    getPixels_exists_cell 90 _
  have h2 : setRotation 0 true
      ⟨90, writeGrid (mapGrid packBin (rot90 (getPixels r0 f)))⟩ =
      .ok ⟨0, writeGrid (mapGrid packBin (getPixels r0 f))⟩ := by
    simp only [setRotation]
    rw [setPixelsGrid_of_decoded 0 _ hG1]
    rw [hget1]
    norm_num
  have hget2 : getPixels 0 (writeGrid (mapGrid packBin (getPixels r0 f)))
      = getPixels r0 f := by
    simp only [getPixels]
    norm_num
    rw [frameGrid_writeGrid]
    exact hmapG
  exact ⟨_, _, h1, h2 , hget2⟩

/-! ### Text assets: glyphs and trimming -/

/-- A glyph: a list of pixel rows.  As loaded from the font atlas a glyph
has 5 rows of 8 pixels; `_trim_whitespace` may drop rows. -/
abbrev Glyph : Type := List (List Pixel)

/-- Channel sum of one glyph row (`char[i].sum()`). -/
def rowSum (row : List Pixel) : Nat :=
  (row.map (fun p => p.r + p.g + p.b)).sum

/-- Channel sum of a whole glyph (`char.sum()`). -/
def glyphSum (g : Glyph) : Nat := (g.map rowSum).sum

/-- `_trim_whitespace`: if the glyph has any lit pixel, scan forwards for
the first row with a non-zero channel sum and backwards for the last one
(the source's two `range(5)`/`range(4, -1, -1)` loops with `break`), and
return the slice `char[slice_from:slice_to]`; otherwise return the glyph
unchanged. -/
def trimWhitespace (char : Glyph) : Glyph :=
  if 0 < glyphSum char then
    let sliceFrom := char.findIdx (fun row => decide (0 < rowSum row))
    let sliceTo :=
      char.length - char.reverse.findIdx (fun row => decide (0 < rowSum row))
    (char.drop sliceFrom).take (sliceTo - sliceFrom)
  else char

/-- `List.getD` at an in-range index is plain indexing. -/
theorem getD_of_lt {α : Type} (l : List α) (i : Nat) (d : α)
    (h : i < l.length) : l.getD i d = l[i] := by
  rw [List.getD_eq_getElem?_getD, List.getElem?_eq_getElem h]
  rfl

/-- The all-black 5×8 glyph (e.g. the space character). -/
def blackGlyph : Glyph := List.replicate 5 (List.replicate 8 ⟨0, 0, 0⟩)

/-- Counterexample to C5: an entirely black glyph is returned *unchanged*
by `_trim_whitespace` — 5 rows, not 0 rows (the `char.sum() > 0` guard
skips trimming entirely). -/
theorem trim_black_glyph_keeps_rows :
    trimWhitespace blackGlyph = blackGlyph
    ∧ (trimWhitespace blackGlyph).length = 5
    ∧ (trimWhitespace blackGlyph).length ≠ 0 := by decide

/-- C5 (amended): on a 5-row glyph with at least one lit pixel,
`_trim_whitespace` removes exactly the leading and trailing rows whose
channel sum is zero, returning the contiguous slice from the first to the
last non-zero row — between 1 and 5 rows, whose first and last rows are
non-zero.  An entirely black glyph is returned unchanged (5 rows), not
trimmed to 0 rows. -/
theorem trim_whitespace_spec (g : Glyph) (h5 : g.length = 5) :
    (glyphSum g = 0 → trimWhitespace g = g)
    ∧ (0 < glyphSum g →
        ∃ a b, a ≤ b ∧ b < 5
          ∧ trimWhitespace g = (g.drop a).take (b + 1 - a)
          ∧ (∀ i, i < a → rowSum (g.getD i []) = 0)
          ∧ (∀ i, b < i → i < 5 → rowSum (g.getD i []) = 0)
          ∧ 0 < rowSum (g.getD a [])
          ∧ 0 < rowSum (g.getD b [])
          ∧ (trimWhitespace g).length = b + 1 - a
          ∧ 1 ≤ (trimWhitespace g).length
          ∧ (trimWhitespace g).length ≤ 5) := by
  constructor
  · intro h0
    simp [trimWhitespace, h0]
  · intro hpos
    have hex : ∃ row ∈ g, (fun row => decide (0 < rowSum row)) row = true := by
      by_contra hc
      push_neg at hc
      have hall : ∀ row ∈ g, rowSum row = 0 := by
        intro row hrow
        have hb := hc row hrow
        by_contra hr
        have hr2 : 0 < rowSum row := Nat.pos_of_ne_zero hr
        simp [hr2] at hb
      have : glyphSum g = 0 := by
        apply List.sum_eq_zero
        intro x hx
        obtain ⟨row, hrow, rfl⟩ := List.mem_map.mp hx
        exact hall row hrow
      omega
    have hexr : ∃ row ∈ g.reverse,
        (fun row => decide (0 < rowSum row)) row = true := by
      obtain ⟨row, hrow, hprow⟩ := hex
      exact ⟨row, List.mem_reverse.mpr hrow, hprow⟩
    set p : List Pixel → Bool := fun row => decide (0 < rowSum row) with hp
    have ha_lt : g.findIdx p < g.length := List.findIdx_lt_length_of_exists hex
    have hr_lt0 : g.reverse.findIdx p < g.reverse.length :=
      List.findIdx_lt_length_of_exists hexr
    have hr_lt : g.reverse.findIdx p < g.length := by
      rw [List.length_reverse] at hr_lt0
      exact hr_lt0
    have hb_lt : g.length - 1 - g.reverse.findIdx p < g.length := by omega
    -- the row at the backwards break index is lit
    have hlast : p (g[g.length - 1 - g.reverse.findIdx p]) = true := by
      have hrev : p (g.reverse[g.reverse.findIdx p]) = true :=
        List.findIdx_getElem
      rw [List.getElem_reverse] at hrev
      exact hrev
    -- the forward break index is at most the backward one
    have hab : g.findIdx p ≤ g.length - 1 - g.reverse.findIdx p := by
      by_contra hc
      push_neg at hc
      have hfalse := List.not_of_lt_findIdx hc
      rw [hlast] at hfalse
      exact Bool.noConfusion hfalse
    refine ⟨g.findIdx p, g.length - 1 - g.reverse.findIdx p, hab, by omega,
      ?_, ?_, ?_, ?_, ?_, ?_, ?_, ?_⟩
    · -- the slice equation
      rw [trimWhitespace, if_pos hpos]
      have heq : g.length - g.reverse.findIdx p
          = g.length - 1 - g.reverse.findIdx p + 1 := by omega
      rw [← hp, heq]
    · -- leading rows are all-black
      intro i hi
      have hfalse := List.not_of_lt_findIdx hi
      have hi_lt : i < g.length := by omega
      rw [getD_of_lt g i [] hi_lt]
      simp only [hp, decide_eq_false_iff_not, not_lt] at hfalse
      omega
    · -- trailing rows are all-black
      intro i hbi hi5
      have hi_lt : i < g.length := by omega
      have hrevi : g.length - 1 - i < g.reverse.findIdx p := by omega
      have hfalse := List.not_of_lt_findIdx hrevi
      rw [List.getElem_reverse] at hfalse
      have hfi : p (g[i]) = false := by
        convert hfalse using 3
        omega
      rw [getD_of_lt g i [] hi_lt]
      simp only [hp, decide_eq_false_iff_not, not_lt] at hfi
      omega
    · -- the first kept row is lit
      have hfirst := @List.findIdx_getElem _ p g ha_lt
      rw [getD_of_lt g _ [] ha_lt]
      simp only [hp, decide_eq_true_eq] at hfirst
      exact hfirst
    · -- the last kept row is lit
      have hb_lt : g.length - 1 - g.reverse.findIdx p < g.length := by omega
      rw [getD_of_lt g _ [] hb_lt]
      simp only [hp, decide_eq_true_eq] at hlast
      exact hlast
    · -- length of the result
      rw [trimWhitespace, if_pos hpos]
      simp only [List.length_take, List.length_drop, ← hp]
      omega
    · -- at least one row
      rw [trimWhitespace, if_pos hpos]
      simp only [List.length_take, List.length_drop, ← hp]
      omega
    · rw [trimWhitespace, if_pos hpos]
      simp only [List.length_take, List.length_drop, ← hp]
      omega

/-- A 5-row glyph with lit rows 1 and 3 (0-based), used as the concrete
input of the trimming witness. -/
def litGlyph : Glyph :=
  [List.replicate 8 ⟨0, 0, 0⟩,
   List.replicate 8 ⟨255, 255, 255⟩,
   List.replicate 8 ⟨0, 0, 0⟩,
   List.replicate 8 ⟨255, 255, 255⟩,
   List.replicate 8 ⟨0, 0, 0⟩]

/-- Witness for C5 (amended) at the concrete glyph `litGlyph`. -/
theorem trim_whitespace_spec_witness :
    ∃ a b, a ≤ b ∧ b < 5
      ∧ trimWhitespace litGlyph = (litGlyph.drop a).take (b + 1 - a)
      ∧ (∀ i, i < a → rowSum (litGlyph.getD i []) = 0)
      ∧ (∀ i, b < i → i < 5 → rowSum (litGlyph.getD i []) = 0)
      ∧ 0 < rowSum (litGlyph.getD a [])
      ∧ 0 < rowSum (litGlyph.getD b [])
      ∧ (trimWhitespace litGlyph).length = b + 1 - a
      ∧ 1 ≤ (trimWhitespace litGlyph).length
      ∧ (trimWhitespace litGlyph).length ≤ 5 :=
  (trim_whitespace_spec litGlyph (by decide)).2 (by decide)

/-! ### Character lookup and the text renderer -/

/-- `Except` result inspection used to state the rotation-restore
behaviour. -/
def exceptOk {α : Type} : Except String α → Bool
  | .ok _ => true
  | .error _ => false

/-- `_get_char_pixels`: the stored glyph for a stored single character,
else the `'?'` glyph.  `none` models the `KeyError` raised when `'?'`
itself is absent from the dictionary. -/
def getCharPixels (find : Char → Option Glyph) (s : List Char) :
    Option Glyph :=
  match s with
  | [c] => if (find c).isSome then find c else find '?'
  | _ => find '?'

/-- `self._rotation -= 90`, then `if self._rotation < 0: self._rotation =
270`: the transient 90°-left rotation adjustment of the text renderer. -/
def wrapRotLeft (r : Int) : Int := if r - 90 < 0 then 270 else r - 90

/-- Does the pixel have *some* channel equal to 255?  This is the test
`np.where(pixel_list[:,:] == np.array([255, 255, 255]))` actually
performs: the comparison is element-wise, and a (row, column) index enters
`f_px` as soon as one channel matches. -/
def hasChannel255 (p : Pixel) : Bool :=
  decide (p.r = 255) || decide (p.g = 255) || decide (p.b = 255)

/-- Recolouring of one position (source: `scroll_pixels[:,:] =
back_colour` followed by `scroll_pixels[f_px[0], f_px[1]] =
text_colour`): positions indexed by `f_px` get the text colour, all others
the back colour, with the values wrapped into the `uint16` array. -/
def recolorPixel (tc bc : PixelZ) (p : Pixel) : Pixel :=
  if hasChannel255 p then wrapPix tc else wrapPix bc

/-- The 8×8 source frame of `show_letter`: rows 1–5 hold the 5×8 glyph
(`pixel_list[1:6] = self._get_char_pixels(s)`), the others stay zero. -/
def letterGrid (g : Glyph) : Grid Pixel :=
  fun i j =>
    if 1 ≤ i.val ∧ i.val ≤ 5 then (g.getD (i.val - 1) []).getD j.val ⟨0, 0, 0⟩
    else ⟨0, 0, 0⟩

/-- The recoloured 8×8 frame that `show_letter` passes to `set_pixels`. -/
def renderLetterGrid (g : Glyph) (tc bc : PixelZ) : Grid Pixel :=
  mapGrid (recolorPixel tc bc) (letterGrid g)

/-- `show_letter`: validate the length, save and decrement the rotation
(wrapping 0 to 270), render the recoloured glyph frame through
`set_pixels`, and restore the rotation.  The final value of the rotation
field is returned alongside the result: an error raised after the
decrement (missing `'?'` key, or pixel validation failure inside
`set_pixels`) propagates with the rotation still decremented, because the
source has no `try/finally`. -/
def showLetter (find : Char → Option Glyph) (s : List Char)
    (tc bc : PixelZ) (st : HatState) : Except String Frame × Int :=
  if s.length > 1 then
    (.error "Only one character may be passed into this method", st.rotation)
  else
    let rot := wrapRotLeft st.rotation
    match getCharPixels find s with
    | none => (.error "KeyError", rot)
    | some g =>
        match setPixelsGrid rot (toZGrid (renderLetterGrid g tc bc)) with
        | .ok f => (.ok f, st.rotation)
        | .error e => (.error e, rot)

/-- An all-white 5×8 glyph. -/
def whiteGlyph : Glyph := List.replicate 5 (List.replicate 8 ⟨255, 255, 255⟩)

/-- A glyph store that stores `whiteGlyph` under every character. -/
def findWhite : Char → Option Glyph := fun _ => some whiteGlyph

/-! #### The scroll renderer -/

/-- One blank padding row (`letter_padding`, shape `(1, 8, 3)`). -/
def blankRow : List Pixel := List.replicate 8 ⟨0, 0, 0⟩

/-- The blank 8×8 leading/trailing padding (`string_padding`). -/
def blank8 : List (List Pixel) := List.replicate 8 blankRow

/-- Build the scroll strip (`show_message` loop): start from the blank
padding, and for each character append its *trimmed* glyph and one blank
row; finally append the trailing blank padding.  `none` models the
`KeyError` when the fallback `'?'` glyph is absent. -/
def buildStrip (find : Char → Option Glyph) (text : List Char) :
    Option (List (List Pixel)) :=
  (text.foldlM (fun acc c =>
      (getCharPixels find [c]).map
        (fun g => acc ++ trimWhitespace g ++ [blankRow])) blank8).map
    (fun strip => strip ++ blank8)

/-- Recolour the whole strip (same `np.where` mechanism as
`show_letter`). -/
def recolorStrip (tc bc : PixelZ) (strip : List (List Pixel)) :
    List (List Pixel) :=
  strip.map (fun row => row.map (recolorPixel tc bc))

/-- One observable step of the scroll animation: an 8-row window written
to the matrix, or a `time.sleep(scroll_speed)` suspension. -/
inductive ScrollEvent where
  | write (w : List (List Pixel))
  | sleep
deriving DecidableEq, Repr

/-- The `set_pixels` range validation applied to one scrolled window. -/
def windowValid (w : List (List Pixel)) : Bool :=
  w.all (fun row => row.all (fun p =>
    decide (p.r ≤ 255) && decide (p.g ≤ 255) && decide (p.b ≤ 255)))

/-- The scroll loop `for i in range(scroll_length - 8)`: each iteration
writes the current window via `set_pixels` (whose validation can raise)
and then sleeps for the scroll speed. -/
def runScroll : List (List (List Pixel)) → Except String (List ScrollEvent)
  | [] => .ok []
  | w :: ws =>
      if windowValid w then
        (runScroll ws).map (fun es => .write w :: .sleep :: es)
      else .error "A pixel is invalid. Pixel elements must be between 0 and 255"

/-- The successive 8-row windows `scroll_pixels[i:i+8]` for
`i in range(len - 8)`. -/
def stripWindows (strip : List (List Pixel)) : List (List (List Pixel)) :=
  (List.range (strip.length - 8)).map (fun i => (strip.drop i).take 8)

/-- `show_message`: save and decrement the rotation (wrapping), build the
strip, recolour it, write each 8-row window followed by a sleep, and
restore the rotation on normal completion.  As in `show_letter`, an error
raised mid-render leaves the rotation decremented. -/
def showMessage (find : Char → Option Glyph) (text : List Char)
    (tc bc : PixelZ) (st : HatState) :
    Except String (List ScrollEvent) × Int :=
  let rot := wrapRotLeft st.rotation
  match buildStrip find text with
  | none => (.error "KeyError", rot)
  | some strip =>
      match runScroll (stripWindows (recolorStrip tc bc strip)) with
      | .ok es => (.ok es, st.rotation)
      | .error e => (.error e, rot)

/-- Counterexample to C4: `show_letter('A')` with the out-of-range text
colour `(300, 0, 0)` raises the `set_pixels` validation error *after* the
rotation field was decremented, and — with no `try/finally` in the source
— the rotation is left at 270 instead of being restored to the caller's
original 0. -/
theorem show_letter_error_leaks_rotation :
    (showLetter findWhite ['A'] ⟨300, 0, 0⟩ ⟨0, 0, 0⟩ ⟨0, frame0⟩).1
        = .error "A pixel is invalid. Pixel elements must be between 0 and 255"
    ∧ (showLetter findWhite ['A'] ⟨300, 0, 0⟩ ⟨0, 0, 0⟩ ⟨0, frame0⟩).2 = 270
    ∧ (270 : Int) ≠ 0 := by
  have hcell : mapGrid wrapPix (toZGrid
      (renderLetterGrid whiteGlyph ⟨300, 0, 0⟩ ⟨0, 0, 0⟩)) 1 0
      = ⟨300, 0, 0⟩ := by decide
  have herr : setPixelsGrid 270 (toZGrid
      (renderLetterGrid whiteGlyph ⟨300, 0, 0⟩ ⟨0, 0, 0⟩))
      = .error "A pixel is invalid. Pixel elements must be between 0 and 255" := by
    simp only [setPixelsGrid]
    rw [if_neg]
    intro hall
    have h10 := hall 1 0
    rw [hcell] at h10
    simp at h10
  have hmain : showLetter findWhite ['A'] ⟨300, 0, 0⟩ ⟨0, 0, 0⟩ ⟨0, frame0⟩
      = (match setPixelsGrid 270 (toZGrid
          (renderLetterGrid whiteGlyph ⟨300, 0, 0⟩ ⟨0, 0, 0⟩)) with
        | .ok f => (.ok f, (0 : Int))
        | .error e => (.error e, (270 : Int))) := rfl
  rw [herr] at hmain
  exact ⟨by rw [hmain], by rw [hmain], by decide⟩

/-- C4 (amended): in both text-rendering calls the rotation field is saved,
decremented by 90° (wrapping 0 to 270) and used for the render; it is
restored to the caller's value exactly when the call completes normally
(for `show_letter` also when the length check rejects the argument before
any mutation).  When an error is raised mid-render, the rotation is left
at the decremented value — there is no `try/finally`, so restoration is
*not* guaranteed on all exit paths. -/
theorem text_render_rotation_restore (find : Char → Option Glyph)
    (s text : List Char) (tc bc : PixelZ) (st : HatState) :
    (showLetter find s tc bc st).2
      = (if s.length > 1 then st.rotation
         else if exceptOk (showLetter find s tc bc st).1 then st.rotation
         else wrapRotLeft st.rotation)
    ∧ (showMessage find text tc bc st).2
      = (if exceptOk (showMessage find text tc bc st).1 then st.rotation
         else wrapRotLeft st.rotation) := by
  constructor
  · by_cases hlen : s.length > 1
    · simp [showLetter, hlen]
    · rcases hg : getCharPixels find s with _ | g
      · simp [showLetter, hlen, hg, exceptOk]
      · rcases hw : setPixelsGrid (wrapRotLeft st.rotation)
            (toZGrid (renderLetterGrid g tc bc)) with e | f
        · simp [showLetter, hlen, hg, hw, exceptOk]
        · simp [showLetter, hlen, hg, hw, exceptOk]
  · rcases hb : buildStrip find text with _ | strip
    · simp [showMessage, hb, exceptOk]
    · rcases hr : runScroll (stripWindows (recolorStrip tc bc strip)) with e | es
      · simp [showMessage, hb, hr, exceptOk]
      · simp [showMessage, hb, hr, exceptOk]

/-! ### The scroll strip structure -/

/-- The glyph a character contributes to the strip (total form of the
lookup, meaningful whenever the `'?'` fallback is present). -/
def glyphOfD (find : Char → Option Glyph) (c : Char) : Glyph :=
  (getCharPixels find [c]).getD []

/-- With the `'?'` fallback present, every single-character lookup
succeeds. -/
theorem getCharPixels_eq_some (find : Char → Option Glyph) (q : Glyph)
    (hq : find '?' = some q) (c : Char) :
    getCharPixels find [c] = some (glyphOfD find c) := by
  cases hfc : find c with
  | some g => simp [getCharPixels, glyphOfD, hfc]
  | none => simp [getCharPixels, glyphOfD, hfc, hq]

/-- The strip-building fold, with the accumulator generalised. -/
theorem foldl_strip_append (find : Char → Option Glyph) (q : Glyph)
    (hq : find '?' = some q) (text : List Char) :
    ∀ acc, text.foldlM (fun acc c =>
        (getCharPixels find [c]).map
          (fun g => acc ++ trimWhitespace g ++ [blankRow])) acc
      = some (acc ++ text.flatMap
          (fun c => trimWhitespace (glyphOfD find c) ++ [blankRow])) := by
  induction text with
  | nil => intro acc; simp
  | cons c cs ih =>
      intro acc
      rw [List.foldlM_cons, getCharPixels_eq_some find q hq c]
      exact (ih (acc ++ trimWhitespace (glyphOfD find c) ++ [blankRow])).trans
        (by simp [List.append_assoc])

/-- With the `'?'` fallback present, the strip is: one blank 8×8 block,
then for each character its trimmed glyph followed by one blank row, then
a trailing blank 8×8 block. -/
theorem buildStrip_eq (find : Char → Option Glyph) (q : Glyph)
    (hq : find '?' = some q) (text : List Char) :
    buildStrip find text = some (blank8 ++ text.flatMap (fun c =>
      trimWhitespace (glyphOfD find c) ++ [blankRow]) ++ blank8) := by
  unfold buildStrip
  rw [foldl_strip_append find q hq text blank8]
  rfl

theorem wrap16_le (z : Int) (h1 : 0 ≤ z) (h2 : z ≤ 255) : wrap16 z ≤ 255 := by
  simp only [wrap16]
  omega

/-- All pixels of a recoloured strip are in range when both colours are. -/
theorem recolorStrip_pixels_le (tc bc : PixelZ) (strip : List (List Pixel))
    (htc : 0 ≤ tc.r ∧ tc.r ≤ 255 ∧ 0 ≤ tc.g ∧ tc.g ≤ 255 ∧ 0 ≤ tc.b ∧ tc.b ≤ 255)
    (hbc : 0 ≤ bc.r ∧ bc.r ≤ 255 ∧ 0 ≤ bc.g ∧ bc.g ≤ 255 ∧ 0 ≤ bc.b ∧ bc.b ≤ 255) :
    ∀ row ∈ recolorStrip tc bc strip, ∀ p ∈ row,
      p.r ≤ 255 ∧ p.g ≤ 255 ∧ p.b ≤ 255 := by
  intro row hrow p hp
  obtain ⟨row0, _, rfl⟩ := List.mem_map.mp hrow
  obtain ⟨p0, _, rfl⟩ := List.mem_map.mp hp
  unfold recolorPixel
  by_cases hch : hasChannel255 p0
  · rw [if_pos hch]
    exact ⟨wrap16_le _ htc.1 htc.2.1, wrap16_le _ htc.2.2.1 htc.2.2.2.1,
      wrap16_le _ htc.2.2.2.2.1 htc.2.2.2.2.2⟩
  · rw [if_neg hch]
    exact ⟨wrap16_le _ hbc.1 hbc.2.1, wrap16_le _ hbc.2.2.1 hbc.2.2.2.1,
      wrap16_le _ hbc.2.2.2.2.1 hbc.2.2.2.2.2⟩

/-- A window passes the `set_pixels` range check when all its pixels are
in range. -/
theorem windowValid_of_le (w : List (List Pixel))
    (h : ∀ row ∈ w, ∀ p ∈ row, p.r ≤ 255 ∧ p.g ≤ 255 ∧ p.b ≤ 255) :
    windowValid w = true := by
  unfold windowValid
  rw [List.all_eq_true]
  intro row hrow
  rw [List.all_eq_true]
  intro p hp
  have hb := h row hrow p hp
  simp [hb.1, hb.2.1, hb.2.2]

/-- When every window passes validation, the scroll loop performs exactly
one write followed by one sleep per window, in order. -/
theorem runScroll_ok (ws : List (List (List Pixel)))
    (h : ∀ w ∈ ws, windowValid w = true) :
    runScroll ws
      = .ok (ws.flatMap (fun w => [ScrollEvent.write w, ScrollEvent.sleep])) := by
  induction ws with
  | nil => rfl
  | cons w ws ih =>
      show (if windowValid w then _ else _) = _
      rw [if_pos (h w (List.mem_cons_self w ws))]
      rw [ih (fun w hw => h w (List.mem_cons_of_mem _ hw))]
      rfl

/-- C7: with the `'?'` fallback glyph present and both colours in range,
`show_message` builds its scroll strip as one blank 8×8 block, then for
each character the character's trimmed glyph followed by exactly one blank
row, then a trailing blank 8×8 block; it then succeeds, emitting exactly
`len(strip) - 8` window writes — window `i` being rows `[i, i+8)` of the
(recoloured) strip — each followed by one sleep of the configured speed. -/
theorem show_message_strip_windows (find : Char → Option Glyph) (q : Glyph)
    (text : List Char) (tc bc : PixelZ) (st : HatState)
    (hq : find '?' = some q)
    (htc : 0 ≤ tc.r ∧ tc.r ≤ 255 ∧ 0 ≤ tc.g ∧ tc.g ≤ 255 ∧ 0 ≤ tc.b ∧ tc.b ≤ 255)
    (hbc : 0 ≤ bc.r ∧ bc.r ≤ 255 ∧ 0 ≤ bc.g ∧ bc.g ≤ 255 ∧ 0 ≤ bc.b ∧ bc.b ≤ 255) :
    ∃ strip, buildStrip find text = some strip
      ∧ strip = blank8 ++ text.flatMap (fun c =>
          trimWhitespace (glyphOfD find c) ++ [blankRow]) ++ blank8
      ∧ 16 ≤ strip.length
      ∧ (recolorStrip tc bc strip).length = strip.length
      ∧ (stripWindows (recolorStrip tc bc strip)).length = strip.length - 8
      ∧ (∀ i, i < strip.length - 8 →
          (stripWindows (recolorStrip tc bc strip)).getD i []
            = ((recolorStrip tc bc strip).drop i).take 8)
      ∧ (showMessage find text tc bc st).1
          = .ok ((stripWindows (recolorStrip tc bc strip)).flatMap
              (fun w => [ScrollEvent.write w, ScrollEvent.sleep])) := by
  refine ⟨_, buildStrip_eq find q hq text, rfl, ?_, ?_, ?_, ?_, ?_⟩
  · simp [blank8, blankRow]
  · simp [recolorStrip]
  · simp [stripWindows, recolorStrip]
  · intro i hi
    have hlen2 : (recolorStrip tc bc (blank8 ++ text.flatMap (fun c =>
        trimWhitespace (glyphOfD find c) ++ [blankRow]) ++ blank8)).length
        = (blank8 ++ text.flatMap (fun c =>
          trimWhitespace (glyphOfD find c) ++ [blankRow]) ++ blank8).length := by
      simp [recolorStrip]
    rw [getD_of_lt]
    · simp [stripWindows]
    · simp only [stripWindows, List.length_map, List.length_range, hlen2]
      exact hi
  · have hall : ∀ w ∈ stripWindows (recolorStrip tc bc
        (blank8 ++ text.flatMap (fun c =>
          trimWhitespace (glyphOfD find c) ++ [blankRow]) ++ blank8)),
        windowValid w = true := by
      intro w hw
      apply windowValid_of_le
      intro row hrow p hp
      obtain ⟨i, _, rfl⟩ := List.mem_map.mp hw
      exact recolorStrip_pixels_le tc bc _ htc hbc row
        (List.mem_of_mem_drop (List.mem_of_mem_take hrow)) p hp
    simp only [showMessage, buildStrip_eq find q hq text]
    rw [runScroll_ok _ hall]

/-- A glyph store holding only the `'?'` fallback (as `litGlyph`). -/
def findQOnly : Char → Option Glyph :=
  fun c => if c = '?' then some litGlyph else none

/-- Witness for C7 at a concrete store, text and colours (the character
`'A'` is absent, so the `'?'` fallback glyph is used). -/
theorem show_message_strip_windows_witness :
    ∃ strip, buildStrip findQOnly ['A'] = some strip
      ∧ strip = blank8 ++ (['A'].flatMap (fun c =>
          trimWhitespace (glyphOfD findQOnly c) ++ [blankRow])) ++ blank8
      ∧ 16 ≤ strip.length
      ∧ (recolorStrip ⟨255, 255, 255⟩ ⟨0, 0, 0⟩ strip).length = strip.length
      ∧ (stripWindows (recolorStrip ⟨255, 255, 255⟩ ⟨0, 0, 0⟩ strip)).length
          = strip.length - 8
      ∧ (∀ i, i < strip.length - 8 →
          (stripWindows (recolorStrip ⟨255, 255, 255⟩ ⟨0, 0, 0⟩ strip)).getD i []
            = ((recolorStrip ⟨255, 255, 255⟩ ⟨0, 0, 0⟩ strip).drop i).take 8)
      ∧ (showMessage findQOnly ['A'] ⟨255, 255, 255⟩ ⟨0, 0, 0⟩ ⟨0, frame0⟩).1
          = .ok ((stripWindows (recolorStrip ⟨255, 255, 255⟩ ⟨0, 0, 0⟩ strip)).flatMap
              (fun w => [ScrollEvent.write w, ScrollEvent.sleep])) :=
  show_message_strip_windows findQOnly litGlyph ['A'] ⟨255, 255, 255⟩ ⟨0, 0, 0⟩
    ⟨0, frame0⟩ rfl (by decide) (by decide)

/-! ### Recolouring -/

/-- `List.getD` past the end returns the default. -/
theorem getD_of_ge {α : Type} (l : List α) (i : Nat) (d : α)
    (h : l.length ≤ i) : l.getD i d = d := by
  rw [List.getD_eq_getElem?_getD, List.getElem?_eq_none h]
  rfl

/-- Every cell of the `show_letter` source frame is either a glyph pixel
or background black. -/
theorem letterGrid_mem_or (g : Glyph) (i j : Fin 8) :
    letterGrid g i j = ⟨0, 0, 0⟩
    ∨ ∃ row ∈ g, letterGrid g i j ∈ row := by
  unfold letterGrid
  by_cases hi : 1 ≤ i.val ∧ i.val ≤ 5
  · rw [if_pos hi]
    by_cases hrow : i.val - 1 < g.length
    · rw [getD_of_lt _ _ _ hrow]
      by_cases hj : j.val < (g[i.val - 1]).length
      · right
        refine ⟨g[i.val - 1], List.getElem_mem hrow, ?_⟩
        rw [getD_of_lt _ _ _ hj]
        exact List.getElem_mem hj
      · left
        rw [getD_of_ge _ _ _ (by omega)]
    · left
      rw [getD_of_ge g (i.val - 1) [] (by omega)]
      rfl
  · rw [if_neg hi]
    left
    rfl

/-- A glyph whose top-left pixel is pure red `(255, 0, 0)`, all other
pixels black. -/
def redDotGlyph : Glyph :=
  (⟨255, 0, 0⟩ :: List.replicate 7 ⟨0, 0, 0⟩)
    :: List.replicate 4 (List.replicate 8 ⟨0, 0, 0⟩)

/-- Counterexample to C9: the source pixel `(255, 0, 0)` of a glyph is not
pure white, yet `show_letter`'s recolouring turns it into the *text*
colour, not the back colour — because `np.where(pixel_list ==
[255, 255, 255])` matches element-wise, any pixel with one channel equal
to 255 is treated as lit. -/
theorem recolor_not_only_pure_white :
    letterGrid redDotGlyph 1 0 = ⟨255, 0, 0⟩
    ∧ ((⟨255, 0, 0⟩ : Pixel) ≠ ⟨255, 255, 255⟩)
    ∧ renderLetterGrid redDotGlyph ⟨1, 2, 3⟩ ⟨9, 9, 9⟩ 1 0 = ⟨1, 2, 3⟩
    ∧ wrapPix ⟨1, 2, 3⟩ = ⟨1, 2, 3⟩
    ∧ wrapPix ⟨9, 9, 9⟩ = ⟨9, 9, 9⟩
    ∧ ((⟨1, 2, 3⟩ : Pixel) ≠ ⟨9, 9, 9⟩) := by decide

/-- C9 (amended): for glyphs whose pixels are each pure white or pure
black — as the shipped font's are — exactly the pure-white source pixels
are recoloured to the text colour and all others to the back colour, both
in `show_letter`'s frame and in `show_message`'s strip.  (For other pixel
values the implemented test is "some channel equals 255", see the
counterexample.) -/
theorem recolor_spec (g : Glyph) (tc bc : PixelZ)
    (hbw : ∀ row ∈ g, ∀ p ∈ row, p = ⟨255, 255, 255⟩ ∨ p = ⟨0, 0, 0⟩) :
    (∀ i j : Fin 8,
        renderLetterGrid g tc bc i j
          = if letterGrid g i j = ⟨255, 255, 255⟩ then wrapPix tc else wrapPix bc)
    ∧ (∀ strip : List (List Pixel),
        (∀ row ∈ strip, ∀ p ∈ row, p = ⟨255, 255, 255⟩ ∨ p = ⟨0, 0, 0⟩) →
        recolorStrip tc bc strip = strip.map (fun row => row.map (fun p =>
          if p = ⟨255, 255, 255⟩ then wrapPix tc else wrapPix bc))) := by
  have hpx : ∀ p : Pixel, p = ⟨255, 255, 255⟩ ∨ p = ⟨0, 0, 0⟩ →
      recolorPixel tc bc p
        = if p = ⟨255, 255, 255⟩ then wrapPix tc else wrapPix bc := by
    rintro p (rfl | rfl) <;> rfl
  constructor
  · intro i j
    show recolorPixel tc bc (letterGrid g i j) = _
    apply hpx
    rcases letterGrid_mem_or g i j with hz | ⟨row, hrow, hmem⟩
    · exact Or.inr hz
    · exact hbw row hrow _ hmem
  · intro strip hbw2
    unfold recolorStrip
    apply List.map_congr_left
    intro row hrow
    apply List.map_congr_left
    intro p hp
    exact hpx p (hbw2 row hrow p hp)

/-- Witness for C9 (amended) at the concrete black-and-white glyph
`litGlyph` and colours `(10, 20, 30)` / `(1, 1, 1)`. -/
theorem recolor_spec_witness :
    (∀ i j : Fin 8,
        renderLetterGrid litGlyph ⟨10, 20, 30⟩ ⟨1, 1, 1⟩ i j
          = if letterGrid litGlyph i j = ⟨255, 255, 255⟩
            then wrapPix ⟨10, 20, 30⟩ else wrapPix ⟨1, 1, 1⟩)
    ∧ (∀ strip : List (List Pixel),
        (∀ row ∈ strip, ∀ p ∈ row, p = ⟨255, 255, 255⟩ ∨ p = ⟨0, 0, 0⟩) →
        recolorStrip ⟨10, 20, 30⟩ ⟨1, 1, 1⟩ strip
          = strip.map (fun row => row.map (fun p =>
              if p = ⟨255, 255, 255⟩ then wrapPix ⟨10, 20, 30⟩
              else wrapPix ⟨1, 1, 1⟩))) :=
  recolor_spec litGlyph ⟨10, 20, 30⟩ ⟨1, 1, 1⟩ (by decide)

/-! ### The empty-string letter -/

/-- `set_pixels` on any grid of in-range `uint16` pixels succeeds and
writes the rotated re-encoding. -/
theorem setPixelsGrid_ok_of_le (r : Int) (G : Grid Pixel)
    (h : ∀ i j : Fin 8, (G i j).r ≤ 255 ∧ (G i j).g ≤ 255 ∧ (G i j).b ≤ 255) :
    setPixelsGrid r (toZGrid G)
      = .ok (writeGrid (mapGrid packBin
          (if 0 < r then rotK (r / 90).toNat G else G))) := by
  have hwrap : mapGrid wrapPix (toZGrid G) = G := by
    funext i j
    have hb := h i j
    simp only [mapGrid, toZGrid]
    exact wrapPix_of_le (G i j) hb.1 hb.2.1 hb.2.2
  simp only [setPixelsGrid, hwrap]
  rw [if_pos h]

/-- C10: `show_letter` with the empty string does not raise — the length
check rejects only strings of more than one character, and the glyph
lookup falls back to the `'?'` glyph for any key that is not a stored
single character — so `show_letter("")` renders exactly what
`show_letter("?")` renders. -/
theorem show_letter_empty_uses_fallback (find : Char → Option Glyph)
    (q : Glyph) (st : HatState) (hq : find '?' = some q) :
    getCharPixels find [] = some q
    ∧ exceptOk (showLetter find [] ⟨255, 255, 255⟩ ⟨0, 0, 0⟩ st).1 = true
    ∧ (∀ tc bc : PixelZ,
        showLetter find [] tc bc st = showLetter find ['?'] tc bc st) := by
  refine ⟨hq, ?_, ?_⟩
  · have hcl : ∀ i j : Fin 8,
        (renderLetterGrid q ⟨255, 255, 255⟩ ⟨0, 0, 0⟩ i j).r ≤ 255
        ∧ (renderLetterGrid q ⟨255, 255, 255⟩ ⟨0, 0, 0⟩ i j).g ≤ 255
        ∧ (renderLetterGrid q ⟨255, 255, 255⟩ ⟨0, 0, 0⟩ i j).b ≤ 255 := by
      intro i j
      show (recolorPixel ⟨255, 255, 255⟩ ⟨0, 0, 0⟩ (letterGrid q i j)).r ≤ 255
        ∧ (recolorPixel ⟨255, 255, 255⟩ ⟨0, 0, 0⟩ (letterGrid q i j)).g ≤ 255
        ∧ (recolorPixel ⟨255, 255, 255⟩ ⟨0, 0, 0⟩ (letterGrid q i j)).b ≤ 255
      unfold recolorPixel
      by_cases hch : hasChannel255 (letterGrid q i j)
      · rw [if_pos hch]
        decide
      · rw [if_neg hch]
        decide
    obtain ⟨f, hf⟩ : ∃ f, setPixelsGrid (wrapRotLeft st.rotation)
        (toZGrid (renderLetterGrid q ⟨255, 255, 255⟩ ⟨0, 0, 0⟩)) = .ok f :=
      ⟨_, setPixelsGrid_ok_of_le _ _ hcl⟩
    simp [showLetter, getCharPixels, hq, hf, exceptOk]
  · intro tc bc
    have he : getCharPixels find ([] : List Char) = getCharPixels find ['?'] := by
      show find '?' = if (find '?').isSome then find '?' else find '?'
      rw [ite_self]
    simp only [showLetter, he]
    norm_num

/-- Witness for C10 at the concrete store `findQOnly` (which has only the
`'?'` entry) and initial state `(rotation 0, blank frame)`. -/
theorem show_letter_empty_uses_fallback_witness :
    getCharPixels findQOnly [] = some litGlyph
    ∧ exceptOk (showLetter findQOnly [] ⟨255, 255, 255⟩ ⟨0, 0, 0⟩
        ⟨0, frame0⟩).1 = true
    ∧ (∀ tc bc : PixelZ,
        showLetter findQOnly [] tc bc ⟨0, frame0⟩
          = showLetter findQOnly ['?'] tc bc ⟨0, frame0⟩) :=
  show_letter_empty_uses_fallback findQOnly litGlyph ⟨0, frame0⟩ (by decide)

end SenseHat
